import Mathlib

/-!
# Verification of the faculty-roster extraction core (`extraction.py`)

A shallow embedding, in Lean 4, of the decision logic of the repository's
faculty-data extractor:

* `safe_normalize_cell`  (cell normalizer),
* `safe_extract_number`  (first-digit-run parser),
* `convert_months_to_years` (experience normalizer),
* `is_potential_faculty_row` (row classifier),
* `create_enhanced_record_with_years` (field-inference engine),
* the per-college assembly in `save_individual_college_excel` and the
  duplicate check of `extract_from_single_pdf`.

Strings are modelled over their character lists; Python's `\s`, `\d`, `\w`
character classes and `str.lower`/`str.upper` are modelled over ASCII.
Regular-expression *search* is modelled by explicit existence of a matching
decomposition, which coincides with Python's backtracking search for the
patterns used here.
-/

namespace Extraction

/-- ASCII whitespace, as matched by Python's `str.strip()` and `\s`. -/
def isWs (c : Char) : Bool :=
  c = ' ' || c = '\t' || c = '\n' || c = '\r' || c = '\x0b' || c = '\x0c'

/-- Python `str.lower`, ASCII model (`Char.toLower` lowers `A`–`Z`). -/
def lowerS (s : String) : String := ⟨s.data.map Char.toLower⟩

/-- Python `str.upper`, ASCII model. -/
def upperS (s : String) : String := ⟨s.data.map Char.toUpper⟩

/-- Drop leading and trailing whitespace from a character list
(Python `str.strip()`). -/
def stripL (l : List Char) : List Char :=
  ((l.dropWhile isWs).reverse.dropWhile isWs).reverse

/-- Python `str.strip()` on strings. -/
def pyStrip (s : String) : String := ⟨stripL s.data⟩

/-- `str(cell).replace("\r", " ").replace("\n", " ")` from
`safe_normalize_cell`. -/
def replBreaks (l : List Char) : List Char :=
  l.map fun c => if c = '\r' ∨ c = '\n' then ' ' else c

/-- `re.sub(r"\s+", " ", s)`: every maximal run of whitespace becomes a
single space (a whitespace character is dropped while the next character
still belongs to the same run, and the run's single `' '` is emitted at the
run's last character). -/
def collapseWs : List Char → List Char
  | [] => []
  | [c] => if isWs c then [' '] else [c]
  | c :: d :: cs =>
    if isWs c then
      if isWs d then collapseWs (d :: cs) else ' ' :: collapseWs (d :: cs)
    else c :: collapseWs (d :: cs)

/-- The normalization pipeline of `safe_normalize_cell` on a present string:
replace line breaks by spaces, strip, collapse whitespace runs. -/
def normL (l : List Char) : List Char := collapseWs (stripL (replBreaks l))

/-- `safe_normalize_cell` from `extraction.py`: `None` becomes `""`, line
breaks become spaces, whitespace runs are collapsed to one space, and the
result is trimmed.  (The enclosing `try/except` is dead in this model: every
step is total.) -/
def safe_normalize_cell (cell : Option String) : String :=
  match cell with
  | none => ""
  | some s => ⟨normL s.data⟩

/-! ### Structure of normalized cell contents -/

theorem head?_dropWhile_not_ws (l : List Char) :
    ∀ c, (l.dropWhile isWs).head? = some c → isWs c = false := by
  induction l with
  | nil => simp
  | cons a t ih =>
    intro c hc
    rw [List.dropWhile_cons] at hc
    split at hc
    · exact ih c hc
    · simp only [List.head?_cons, Option.some.injEq] at hc
      subst hc
      simpa using ‹¬ isWs a = true›

theorem dropWhile_ws_eq_self (l : List Char)
    (h : ∀ c, l.head? = some c → isWs c = false) :
    l.dropWhile isWs = l := by
  cases l with
  | nil => rfl
  | cons a t =>
    rw [List.dropWhile_cons_of_neg]
    simp [h a rfl]

theorem dropWhile_ws_eq_nil_all (l : List Char)
    (h : l.dropWhile isWs = []) : ∀ c ∈ l, isWs c = true := by
  intro c hc
  have := List.dropWhile_eq_nil_iff.mp h
  exact this c hc

theorem collapseWs_cons_nonws {c : Char} (h : isWs c = false) (t : List Char) :
    collapseWs (c :: t) = c :: collapseWs t := by
  cases t with
  | nil => simp [collapseWs, h]
  | cons d cs => simp [collapseWs, h]

theorem collapseWs_ne_nil {l : List Char} (h : l ≠ []) : collapseWs l ≠ [] := by
  induction l with
  | nil => exact absurd rfl h
  | cons a t ih =>
    cases t with
    | nil => rw [collapseWs]; split <;> simp
    | cons d cs =>
      rw [collapseWs]
      split
      · split
        · exact ih (by simp)
        · simp
      · simp

theorem mem_collapseWs_ws (l : List Char) :
    ∀ c ∈ collapseWs l, isWs c = true → c = ' ' := by
  induction l with
  | nil => simp [collapseWs]
  | cons a t ih =>
    cases t with
    | nil =>
      intro c hc hws
      rw [collapseWs] at hc
      split at hc
      · simpa using hc
      · rw [List.mem_singleton] at hc
        subst hc
        exact absurd hws (by simpa using ‹¬ isWs c = true›)
    | cons d cs =>
      intro c hc hws
      rw [collapseWs] at hc
      split at hc
      · split at hc
        · exact ih c hc hws
        · rcases List.mem_cons.mp hc with rfl | h'
          · rfl
          · exact ih c h' hws
      · rcases List.mem_cons.mp hc with rfl | h'
        · exact absurd hws (by simpa using ‹¬ isWs c = true›)
        · exact ih c h' hws

theorem head?_collapseWs (l : List Char)
    (h : ∀ c, l.head? = some c → isWs c = false) :
    ∀ c, (collapseWs l).head? = some c → isWs c = false := by
  cases l with
  | nil => simp [collapseWs]
  | cons a t =>
    intro c hc
    rw [collapseWs_cons_nonws (h a rfl) t] at hc
    simp only [List.head?_cons, Option.some.injEq] at hc
    subst hc
    exact h _ rfl

theorem getLast?_dropWhile_ws (l : List Char)
    (h : l.dropWhile isWs ≠ []) :
    (l.dropWhile isWs).getLast? = l.getLast? := by
  obtain ⟨pre, hpre⟩ := List.dropWhile_suffix (l := l) (p := isWs)
  conv_rhs => rw [← hpre]
  rw [List.getLast?_append]
  cases hlast : (l.dropWhile isWs).getLast? with
  | none => exact absurd (List.getLast?_eq_none_iff.mp hlast) h
  | some c => simp [Option.or]

theorem getLast?_cons_ne_nil {α : Type} (c : α) {cs : List α} (h : cs ≠ []) :
    (c :: cs).getLast? = cs.getLast? := by
  cases cs with
  | nil => exact absurd rfl h
  | cons b t => exact List.getLast?_cons_cons

theorem getLast?_collapseWs (l : List Char)
    (h : ∀ c, l.getLast? = some c → isWs c = false) :
    ∀ c, (collapseWs l).getLast? = some c → isWs c = false := by
  induction l with
  | nil => simp [collapseWs]
  | cons a t ih =>
    cases t with
    | nil =>
      intro c hc
      rw [collapseWs, if_neg (by simp [h a (by simp)])] at hc
      simp only [List.getLast?_singleton, Option.some.injEq] at hc
      subst hc
      exact h _ (by simp)
    | cons d cs =>
      have h' : ∀ c, (d :: cs).getLast? = some c → isWs c = false := fun c hc =>
        h c (by rw [List.getLast?_cons_cons]; exact hc)
      have hX : collapseWs (d :: cs) ≠ [] := collapseWs_ne_nil (by simp)
      intro c hc
      rw [collapseWs] at hc
      split at hc
      · split at hc
        · exact ih h' c hc
        · rw [getLast?_cons_ne_nil _ hX] at hc
          exact ih h' c hc
      · rw [getLast?_cons_ne_nil _ hX] at hc
        exact ih h' c hc

theorem collapseWs_idem (l : List Char) :
    collapseWs (collapseWs l) = collapseWs l := by
  induction l with
  | nil => rfl
  | cons a t ih =>
    cases t with
    | nil =>
      by_cases ha : isWs a = true
      · simp [collapseWs, ha]
      · rw [collapseWs, if_neg ha, collapseWs, if_neg ha]
    | cons d cs =>
      by_cases ha : isWs a = true
      · by_cases hd : isWs d = true
        · rw [show collapseWs (a :: d :: cs) = collapseWs (d :: cs) from by
            rw [collapseWs, if_pos ha, if_pos hd], ih]
        · have hd' : isWs d = false := by simpa using hd
          have hX : collapseWs (d :: cs) = d :: collapseWs cs :=
            collapseWs_cons_nonws hd' cs
          calc collapseWs (collapseWs (a :: d :: cs))
              = collapseWs (' ' :: collapseWs (d :: cs)) := by
                rw [collapseWs, if_pos ha, if_neg (by simp [hd'])]
            _ = collapseWs (' ' :: d :: collapseWs cs) := by rw [hX]
            _ = ' ' :: collapseWs (d :: collapseWs cs) := by
                rw [collapseWs, if_pos (by simp [isWs]), if_neg (by simp [hd'])]
            _ = ' ' :: collapseWs (collapseWs (d :: cs)) := by rw [← hX]
            _ = ' ' :: collapseWs (d :: cs) := by rw [ih]
            _ = collapseWs (a :: d :: cs) := by
                rw [show collapseWs (a :: d :: cs) = ' ' :: collapseWs (d :: cs) from by
                  rw [collapseWs, if_pos ha, if_neg (by simp [hd'])]]
      · have ha' : isWs a = false := by simpa using ha
        rw [collapseWs_cons_nonws ha' (d :: cs),
          collapseWs_cons_nonws ha' (collapseWs (d :: cs)), ih]

theorem replBreaks_eq_self (l : List Char)
    (h : ∀ c ∈ l, c ≠ '\r' ∧ c ≠ '\n') : replBreaks l = l := by
  unfold replBreaks
  induction l with
  | nil => rfl
  | cons a t ih =>
    have ha := h a (by simp)
    simp only [List.map_cons, List.cons.injEq]
    refine ⟨by simp [ha.1, ha.2], ih fun c hc => h c (by simp [hc])⟩

theorem stripL_eq_self (l : List Char)
    (h1 : ∀ c, l.head? = some c → isWs c = false)
    (h2 : ∀ c, l.getLast? = some c → isWs c = false) : stripL l = l := by
  unfold stripL
  rw [dropWhile_ws_eq_self l h1, dropWhile_ws_eq_self _ (by
    intro c hc
    rw [List.head?_reverse] at hc
    exact h2 c hc), List.reverse_reverse]

theorem head?_stripL (l : List Char) :
    ∀ c, (stripL l).head? = some c → isWs c = false := by
  intro c hc
  unfold stripL at hc
  rw [List.head?_reverse] at hc
  by_cases hnil : (l.dropWhile isWs).reverse.dropWhile isWs = []
  · rw [hnil] at hc; simp at hc
  · rw [getLast?_dropWhile_ws _ hnil, List.getLast?_reverse] at hc
    exact head?_dropWhile_not_ws l c hc

theorem getLast?_stripL (l : List Char) :
    ∀ c, (stripL l).getLast? = some c → isWs c = false := by
  intro c hc
  unfold stripL at hc
  rw [List.getLast?_reverse] at hc
  exact head?_dropWhile_not_ws _ c hc

theorem head?_normL (l : List Char) :
    ∀ c, (normL l).head? = some c → isWs c = false :=
  head?_collapseWs _ (head?_stripL _)

theorem getLast?_normL (l : List Char) :
    ∀ c, (normL l).getLast? = some c → isWs c = false :=
  getLast?_collapseWs _ (getLast?_stripL _)

/-- The normalizer output is a fixed point of `stripL`. -/
theorem stripL_normL (l : List Char) : stripL (normL l) = normL l :=
  stripL_eq_self _ (head?_normL l) (getLast?_normL l)

theorem replBreaks_normL (l : List Char) : replBreaks (normL l) = normL l := by
  refine replBreaks_eq_self _ fun c hc => ?_
  have hsp := mem_collapseWs_ws _ c hc
  constructor
  · rintro rfl
    exact absurd (hsp (by simp [isWs])) (by decide)
  · rintro rfl
    exact absurd (hsp (by simp [isWs])) (by decide)

theorem normL_idem (l : List Char) : normL (normL l) = normL l := by
  conv_lhs => rw [normL, replBreaks_normL, stripL_normL]
  rw [show normL l = collapseWs (stripL (replBreaks l)) from rfl, collapseWs_idem]

/-- A normalized cell is a fixed point of Python `str.strip()`. -/
theorem pyStrip_normalized (s : String)
    (h : safe_normalize_cell (some s) = s) : pyStrip s = s := by
  have : pyStrip (safe_normalize_cell (some s)) = safe_normalize_cell (some s) := by
    show (⟨stripL (normL s.data)⟩ : String) = ⟨normL s.data⟩
    rw [stripL_normL]
  rwa [h] at this

/-- **C7.** The cell normalizer `safe_normalize_cell` is idempotent: feeding
its output back in (as a present cell) returns the output unchanged, for
every input, including the null cell. -/
theorem claim_C7_normalize_idempotent (x : Option String) :
    safe_normalize_cell (some (safe_normalize_cell x)) = safe_normalize_cell x := by
  cases x with
  | none =>
    show (⟨normL "".data⟩ : String) = ""
    have h0 : normL ([] : List Char) = [] := by
      show collapseWs (stripL (replBreaks [])) = []
      rw [show stripL (replBreaks []) = [] from rfl, collapseWs]
    show (⟨normL ([] : List Char)⟩ : String) = ""
    rw [h0]
  | some s =>
    show (⟨normL (⟨normL s.data⟩ : String).data⟩ : String) = ⟨normL s.data⟩
    exact congrArg String.mk (normL_idem s.data)

/-! ### Number extraction and the experience normalizer -/

/-- The first maximal run of decimal digits in a character list, as found by
`re.search(r"\d+", ...)`; empty if the text has no digit. -/
def firstDigitRun : List Char → List Char
  | [] => []
  | c :: cs => if c.isDigit then c :: cs.takeWhile Char.isDigit else firstDigitRun cs

/-- Numeric value of a digit run (`int(...)` on the matched group). -/
def natOfDigits (ds : List Char) : Nat :=
  ds.foldl (fun a c => 10 * a + (c.toNat - 48)) 0

/-- `safe_extract_number` from `extraction.py`: falsy (empty) text gives
`None`; otherwise the first digit run parsed as an integer, `None` when there
is no digit. -/
def safe_extract_number (t : String) : Option Nat :=
  if t = "" then none
  else match firstDigitRun t.data with
    | [] => none
    | ds => some (natOfDigits ds)

/-- The character of a decimal digit (only ever applied to values `< 10`). -/
def digitChar : Nat → Char
  | 0 => '0' | 1 => '1' | 2 => '2' | 3 => '3' | 4 => '4'
  | 5 => '5' | 6 => '6' | 7 => '7' | 8 => '8' | _ => '9'

/-- Decimal digit characters of `n`, most significant first, with explicit
fuel (the fuel `n` always suffices, since a number has at most `n` digits). -/
def natDigitsGo : Nat → Nat → List Char
  | 0, n => [digitChar n]
  | fuel + 1, n =>
    if n < 10 then [digitChar n]
    else natDigitsGo fuel (n / 10) ++ [digitChar (n % 10)]

/-- Python `str(n)` for a natural number. -/
def natStr (n : Nat) : String := ⟨natDigitsGo n n⟩

theorem natDigitsGo_ne_nil (fuel n : Nat) : natDigitsGo fuel n ≠ [] := by
  cases fuel with
  | zero => simp [natDigitsGo]
  | succ f =>
    rw [natDigitsGo]
    split <;> simp

theorem natStr_ne_empty (n : Nat) : natStr n ≠ "" := by
  intro h
  exact natDigitsGo_ne_nil n n (congrArg String.data h)

/-- The tenths digit of `k / 12` for `0 < k < 12`, rounded half to even.
This embeds Python's `f"{months/12:.1f}"` fractional digit: the quotient
`months/12` is exactly representable as a double at the tie points
(`k = 3, 9` give `.25`/`.75`), where CPython rounds half to even. -/
def roundHalfEvenDigit (k : Nat) : Nat :=
  let a := 5 * k
  let q := a / 6
  let r := a % 6
  if 2 * r < 6 then q
  else if 6 < 2 * r then q + 1
  else if q % 2 = 0 then q else q + 1

/-- `convert_months_to_years` from `extraction.py`.  Python's falsy test
`if not months:` treats a parsed value of `0` exactly like a missing number
(the input is returned unchanged).  The float test `years == int(years)`
holds exactly when `12 ∣ months`, and `f"{years:.1f}"` renders one
half-to-even-rounded decimal digit; both are embedded exactly (they agree
with the double-precision computation for every realistic cell). -/
def convert_months_to_years (t : String) : String :=
  if t = "" then ""
  else match safe_extract_number t with
    | none => t
    | some n =>
      if n = 0 then t
      else if n < 12 then natStr n ++ " months"
      else if n % 12 = 0 then natStr (n / 12) ++ " years"
      else natStr (n / 12) ++ "." ++ natStr (roundHalfEvenDigit (n % 12)) ++ " years"

/-- **C3, counterexample.**  The claim states that a parsed value `n < 12`
always yields `"{n} months"`, but for the input `"0"` (parsed value `0`,
falsy in Python) the code returns the input unchanged, not `"0 months"`. -/
theorem claim_C3_counterexample :
    safe_extract_number "0" = some 0 ∧
    convert_months_to_years "0" = "0" ∧
    convert_months_to_years "0" ≠ "0 months" := by
  refine ⟨by decide, by decide, by decide⟩

/-- **C3 (amended).**  For every input `d` of the experience normalizer:
if `d` has no digit run, or its first digit run parses to `0` (falsy in
Python), the result is `d` unchanged; otherwise, for parsed value `n ≥ 1`:
if `n < 12` the result is `"{n} months"`; if `12 ∣ n` it is `"{n/12} years"`
with the whole quotient; otherwise it is the quotient rendered to exactly one
(half-to-even rounded) decimal place followed by `" years"`. -/
theorem claim_C3_experience_normalizer (t : String) :
    (safe_extract_number t = none → convert_months_to_years t = t) ∧
    (safe_extract_number t = some 0 → convert_months_to_years t = t) ∧
    (∀ n, safe_extract_number t = some n → 0 < n → n < 12 →
      convert_months_to_years t = natStr n ++ " months") ∧
    (∀ n, safe_extract_number t = some n → 12 ≤ n → n % 12 = 0 →
      convert_months_to_years t = natStr (n / 12) ++ " years") ∧
    (∀ n, safe_extract_number t = some n → 12 ≤ n → n % 12 ≠ 0 →
      convert_months_to_years t
        = natStr (n / 12) ++ "." ++ natStr (roundHalfEvenDigit (n % 12)) ++ " years") := by
  by_cases ht : t = ""
  · subst ht
    refine ⟨fun _ => rfl, fun h => ?_, fun n h => ?_, fun n h => ?_, fun n h => ?_⟩ <;>
      simp [safe_extract_number] at h
  · refine ⟨fun h => ?_, fun h => ?_, fun n h h1 h2 => ?_, fun n h h1 h2 => ?_,
      fun n h h1 h2 => ?_⟩ <;>
      simp only [convert_months_to_years, if_neg ht, h]
    · simp
    · rw [if_neg (by omega), if_pos h2]
    · rw [if_neg (by omega), if_neg (by omega), if_pos h2]
    · rw [if_neg (by omega), if_neg (by omega), if_neg h2]

/-- Witness for C3: at the concrete input `"18 months"` the hypotheses hold
(`n = 18`, not divisible by twelve) and the normalizer yields `"1.5 years"`. -/
theorem claim_C3_experience_normalizer_witness :
    convert_months_to_years "18 months" = "1.5 years" := by
  have h := (claim_C3_experience_normalizer "18 months").2.2.2.2 18
    (by decide) (by decide) (by decide)
  rw [h]; decide

/-! ### The row classifier -/

/-- `re.search(r"p{k,}", s)` for a character class `p`: some position starts a
run of at least `k` consecutive characters satisfying `p`. -/
def hasKRun (p : Char → Bool) (k : Nat) (s : String) : Bool :=
  s.data.tails.any fun t => decide ((t.take k).length = k) && (t.take k).all p

/-- Python's substring test `needle in hay`. -/
def containsStr (needle hay : String) : Bool :=
  hay.data.tails.any fun t => needle.data.isPrefixOf t

/-- The exclusion vocabulary of `is_potential_faculty_row`. -/
def excludeTerms : List String :=
  ["total", "percentage", "built", "area", "laboratory", "playground",
   "establishment", "recognition", "accreditation", "department wise",
   "category wise", "grand total", "sub total", "overall", "summary"]

/-- The lowercased, space-joined text of the first five cells
(`" ".join(str(cell) for cell in row[:5]).lower()`). -/
def rowTextOf (row : List String) : String :=
  lowerS (String.intercalate " " (row.take 5))

/-- `is_potential_faculty_row` from `extraction.py`, as the conjunction of
its early-return guards (the `try/except` is dead: every step is total). -/
def is_potential_faculty_row (row : List String) : Bool :=
  match row with
  | c0raw :: c1raw :: _ =>
    let c0 := pyStrip c0raw
    let c1 := pyStrip c1raw
    !(c0 == "") && decide (c0.length ≤ 10) &&
    c0.data.any Char.isDigit &&
    (match safe_extract_number c0 with
     | none => false
     | some n => !(n == 0) && decide (1 ≤ n) && decide (n ≤ 9999)) &&
    !(c1 == "") && decide (2 ≤ c1.length) &&
    hasKRun Char.isAlpha 2 c1 && decide (c1.length ≤ 100) &&
    !(excludeTerms.any fun t => containsStr t (rowTextOf row)) &&
    decide (3 ≤ (row.filter fun c => !(pyStrip c == "")).length)
  | _ => false

/-- The classifier property in the specification's words (spec-side
definition, to be compared with `is_potential_faculty_row`): at least two
cells; cell 0 non-empty, at most ten characters, containing a digit, with
first numeric run in `[1, 9999]`; cell 1 non-empty, of length 2–100, with a
run of at least two letters; no exclusion term occurs in the lowercased
space-joined first five cells; and at least three non-empty cells. -/
def classifierSpec (row : List String) : Prop :=
  match row with
  | c0 :: c1 :: _ =>
    c0 ≠ "" ∧ c0.length ≤ 10 ∧ c0.data.any Char.isDigit = true ∧
    (∃ n, safe_extract_number c0 = some n ∧ 1 ≤ n ∧ n ≤ 9999) ∧
    c1 ≠ "" ∧ 2 ≤ c1.length ∧ c1.length ≤ 100 ∧
    hasKRun Char.isAlpha 2 c1 = true ∧
    (∀ t ∈ excludeTerms, containsStr t (rowTextOf row) = false) ∧
    3 ≤ (row.filter fun c => !(c == "")).length
  | _ => False

/-- **C2.**  On rows of normalized cells, the row classifier holds exactly
under the conjunction of conditions stated by the specification. -/
theorem claim_C2_row_classifier (row : List String)
    (hnorm : ∀ c ∈ row, safe_normalize_cell (some c) = c) :
    is_potential_faculty_row row = true ↔ classifierSpec row := by
  match row with
  | [] => simp [is_potential_faculty_row, classifierSpec]
  | [c0] => simp [is_potential_faculty_row, classifierSpec]
  | c0 :: c1 :: rest =>
    have hs0 : pyStrip c0 = c0 := pyStrip_normalized _ (hnorm c0 (by simp))
    have hs1 : pyStrip c1 = c1 := pyStrip_normalized _ (hnorm c1 (by simp))
    have hfil : ((c0 :: c1 :: rest).filter fun c => !(pyStrip c == ""))
        = ((c0 :: c1 :: rest).filter fun c => !(c == "")) :=
      List.filter_congr fun c hc => by
        rw [pyStrip_normalized _ (hnorm c hc)]
    rw [show is_potential_faculty_row (c0 :: c1 :: rest)
        = (!(pyStrip c0 == "") && decide ((pyStrip c0).length ≤ 10) &&
          (pyStrip c0).data.any Char.isDigit &&
          (match safe_extract_number (pyStrip c0) with
           | none => false
           | some n => !(n == 0) && decide (1 ≤ n) && decide (n ≤ 9999)) &&
          !(pyStrip c1 == "") && decide (2 ≤ (pyStrip c1).length) &&
          hasKRun Char.isAlpha 2 (pyStrip c1) && decide ((pyStrip c1).length ≤ 100) &&
          !(excludeTerms.any fun t => containsStr t (rowTextOf (c0 :: c1 :: rest))) &&
          decide (3 ≤ ((c0 :: c1 :: rest).filter fun c => !(pyStrip c == "")).length))
        from rfl]
    rw [hs0, hs1, hfil]
    show (_ = true) ↔ (c0 ≠ "" ∧ _)
    cases hx : safe_extract_number c0 with
    | none =>
      constructor
      · intro h
        simp only [Bool.and_eq_true] at h
        exact absurd h.1.1.1.1.1.1.2 (by decide)
      · rintro ⟨-, -, -, ⟨n, hn, -, -⟩, -⟩
        exact Option.noConfusion hn
    | some m =>
      simp only [Bool.and_eq_true, Bool.not_eq_eq_eq_not, Bool.not_true, beq_eq_false_iff_ne,
        decide_eq_true_eq, List.any_eq_false, Bool.not_eq_true, ne_eq]
      constructor
      · rintro ⟨⟨⟨⟨⟨⟨⟨⟨⟨h0, h0len⟩, h0dig⟩, hser⟩, h1⟩, h1len⟩, hrun⟩, h1len'⟩, hexc⟩, hcnt⟩
        exact ⟨h0, h0len, h0dig, ⟨m, rfl, hser.1.2, hser.2⟩, h1, h1len, h1len', hrun,
          hexc, hcnt⟩
      · rintro ⟨h0, h0len, h0dig, ⟨n, hn, hge, hle⟩, h1, h1len, h1len', hrun, hexc, hcnt⟩
        obtain rfl := Option.some_inj.mp hn
        exact ⟨⟨⟨⟨⟨⟨⟨⟨⟨h0, h0len⟩, h0dig⟩, ⟨⟨by omega, hge⟩, hle⟩⟩, h1⟩, h1len⟩, hrun⟩,
          h1len'⟩, hexc⟩, hcnt⟩

/-- Witness for C2 at a concrete normalized row: the classifier accepts
`["1", "John Smith", "45"]`, hence the specification's conditions hold. -/
theorem claim_C2_row_classifier_witness : classifierSpec ["1", "John Smith", "45"] :=
  (claim_C2_row_classifier ["1", "John Smith", "45"] (by decide)).mp (by decide)

/-! ### The field-inference engine: data model -/

/-- One faculty record: the fields of the record dictionary built by
`create_enhanced_record_with_years` (the `FINAL_COLUMNS` minus the
`Final Serial` added at assembly time). -/
structure Record where
  sNo : String
  name : String
  age : String
  designation : String
  gender : String
  qualification : String
  experience : String
  working : String
  joiningDate : String
  leavingDate : String
  associationType : String
  institutionName : String
deriving DecidableEq, Repr

/-- `record.values()`: the dictionary values in insertion order. -/
def Record.values (r : Record) : List String :=
  [r.sNo, r.name, r.age, r.designation, r.gender, r.qualification, r.experience,
   r.working, r.joiningDate, r.leavingDate, r.associationType, r.institutionName]

/-- The `filled_fields` flag dictionary of the inference scan. -/
structure Filled where
  age : Bool
  gender : Bool
  designation : Bool
  qualification : Bool
  experience : Bool
  working : Bool
  joiningDate : Bool
  leavingDate : Bool
  association : Bool
deriving DecidableEq, Repr

/-- All flags start out false. -/
def Filled.start : Filled :=
  ⟨false, false, false, false, false, false, false, false, false⟩

/-! ### Rule vocabularies and pattern matchers -/

def designationKeywords : List String :=
  ["professor", "lecturer", "assistant", "associate", "principal",
   "hod", "dean", "director", "registrar", "instructor", "demonstrator",
   "tutor", "fellow", "coordinator", "librarian"]

def experienceIndicators : List String :=
  ["month", "year", "experience", "exp", "service", "teaching", "working",
   "employed", "tenure", "duration", "period", "months", "years", "yrs"]

def workingPatterns : List String :=
  ["yes", "no", "working", "current", "permanent", "temporary",
   "continuing", "resigned", "retired", "active", "inactive"]

def qualKeywords : List String :=
  ["phd", "ph.d", "doctorate", "mtech", "m.tech", "btech", "b.tech",
   "msc", "m.sc", "bsc", "b.sc", "mba", "mca", "diploma", "degree",
   "engineering", "medicine", "commerce", "arts", "science", "b.e",
   "m.e", "master", "bachelor", "pg", "ug"]

/-- Consume exactly `n` characters satisfying `p`; `none` if impossible. -/
def dropClassExact (p : Char → Bool) : Nat → List Char → Option (List Char)
  | 0, l => some l
  | _ + 1, [] => none
  | n + 1, c :: cs => if p c then dropClassExact p n cs else none

/-- The possible remainders after consuming between `lo` and `hi` characters
of class `p` (the regex piece `p{lo,hi}`). -/
def afterClassRange (p : Char → Bool) (lo hi : Nat) (l : List Char) : List (List Char) :=
  (List.range (hi + 1 - lo)).filterMap fun k => dropClassExact p (lo + k) l

/-- The possible remainders after consuming one or more characters of class
`p` (the regex piece `p+`). -/
def afterPlus (p : Char → Bool) (l : List Char) : List (List Char) :=
  (List.range l.length).filterMap fun k => dropClassExact p (k + 1) l

/-- Remainder after one character from `set` (a regex character class). -/
def afterCharIn (set : List Char) : List Char → List (List Char)
  | [] => []
  | c :: cs => if set.contains c then [cs] else []

/-- Remainders for the regex piece `,?`. -/
def afterOptComma : List Char → List (List Char)
  | [] => [[]]
  | c :: cs => if c = ',' then [c :: cs, cs] else [c :: cs]

/-- `\w`, ASCII model. -/
def isWordChar (c : Char) : Bool := c.isAlphanum || c = '_'

/-- Date shape one: one or two digits, a slash or dash, one or two digits,
a slash or dash, two to four digits — matching at the start of `l`
(backtracking search succeeds iff some decomposition exists). -/
def matchP1 (l : List Char) : Bool :=
  !(((((afterClassRange Char.isDigit 1 2 l).flatMap (afterCharIn ['/', '-'])).flatMap
    (afterClassRange Char.isDigit 1 2)).flatMap (afterCharIn ['/', '-'])).flatMap
    (afterClassRange Char.isDigit 2 4)).isEmpty

/-- `\d{1,2}\s+\w+\s+\d{2,4}` matches at the start of `l`. -/
def matchP2 (l : List Char) : Bool :=
  !(((((afterClassRange Char.isDigit 1 2 l).flatMap (afterPlus isWs)).flatMap
    (afterPlus isWordChar)).flatMap (afterPlus isWs)).flatMap
    (afterClassRange Char.isDigit 2 4)).isEmpty

/-- `\w+\s+\d{1,2},?\s+\d{2,4}` matches at the start of `l`. -/
def matchP3 (l : List Char) : Bool :=
  !((((((afterPlus isWordChar l).flatMap (afterPlus isWs)).flatMap
    (afterClassRange Char.isDigit 1 2)).flatMap afterOptComma).flatMap
    (afterPlus isWs)).flatMap (afterClassRange Char.isDigit 2 4)).isEmpty

/-- Date shape four: two to four digits, a slash or dash, one or two
digits, a slash or dash, one or two digits — matching at the start of `l`. -/
def matchP4 (l : List Char) : Bool :=
  !(((((afterClassRange Char.isDigit 2 4 l).flatMap (afterCharIn ['/', '-'])).flatMap
    (afterClassRange Char.isDigit 1 2)).flatMap (afterCharIn ['/', '-'])).flatMap
    (afterClassRange Char.isDigit 1 2)).isEmpty

/-- `\d{4}-\d{2}` matches at the start of `l`. -/
def matchP5 (l : List Char) : Bool :=
  !(((afterClassRange Char.isDigit 4 4 l).flatMap (afterCharIn ['-'])).flatMap
    (afterClassRange Char.isDigit 2 2)).isEmpty

/-- `re.search`: the pattern matches at some position. -/
def searchIn (m : List Char → Bool) (s : String) : Bool := s.data.tails.any m

/-- The five `date_patterns` of the date-detection rule. -/
def looksLikeDate (cell : String) : Bool :=
  searchIn matchP1 cell || searchIn matchP2 cell || searchIn matchP3 cell ||
  searchIn matchP4 cell || searchIn matchP5 cell

/-- `re.search(r'\d{4}', ...)`: four consecutive digits somewhere. -/
def hasFourDigitRun (cell : String) : Bool := hasKRun Char.isDigit 4 cell

/-- `[bm]\.[a-z]{2,}` matches at the start of `l` (applied to the lowercased
cell). -/
def matchAbbrev (l : List Char) : Bool :=
  !(((afterCharIn ['b', 'm'] l).flatMap (afterCharIn ['.'])).flatMap
    (afterClassRange Char.isLower 2 2)).isEmpty

/-- First `\d+\.\d+` in the cell: integer digits and fraction digits.
(Backtracking inside `\d+` never helps before `\.`, so the maximal run
suffices at each start position.) -/
def decimalAt (l : List Char) : Option (List Char × List Char) :=
  let d1 := l.takeWhile Char.isDigit
  if d1.isEmpty then none
  else match l.drop d1.length with
    | '.' :: rest =>
      let d2 := rest.takeWhile Char.isDigit
      if d2.isEmpty then none else some (d1, d2)
    | _ => none

def firstDecimalGo : List Char → Option (List Char × List Char)
  | [] => none
  | c :: cs =>
    match decimalAt (c :: cs) with
    | some r => some r
    | none => firstDecimalGo cs

/-- `re.search(r'(\d+\.\d+)', cell)`, leftmost match. -/
def firstDecimal (cell : String) : Option (List Char × List Char) :=
  firstDecimalGo cell.data

/-! ### Rule conditions and produced values -/

def hasDigit (cell : String) : Bool := cell.data.any Char.isDigit

/-- Age rule: extracted number in `[18, 80]` (a falsy `0` never qualifies)
and the whole cell at most three characters. -/
def ageHit (cell : String) : Bool :=
  match safe_extract_number cell with
  | some a => !(a == 0) && decide (18 ≤ a) && decide (a ≤ 80) && decide (cell.length ≤ 3)
  | none => false

/-- The stored age, `str(age)` of the extracted number. -/
def ageValue (cell : String) : String :=
  match safe_extract_number cell with
  | some a => natStr a
  | none => ""

def genderHit (cell cl : String) : Bool :=
  cl == "m" || cl == "f" || cl == "male" || cl == "female" || cl == "man" ||
  cl == "woman" || upperS cell == "M" || upperS cell == "F"

/-- The stored gender: uppercased when it is a single `M`/`F` letter. -/
def genderValue (cell : String) : String :=
  if upperS cell == "M" || upperS cell == "F" then upperS cell else cell

/-- Experience pattern 1: a digit together with a duration keyword. -/
def expKeywordHit (cell cl : String) : Bool :=
  (experienceIndicators.any fun w => containsStr w cl) && hasDigit cell

/-- Experience pattern 2: a pure number outside the age band `[18, 80]` and
inside the plausible month range `[1, 600]` (a falsy `0` never fires). -/
def expNumberHit (cell : String) : Bool :=
  hasDigit cell &&
  (match safe_extract_number cell with
   | some n => !(n == 0) && !(decide (18 ≤ n) && decide (n ≤ 80)) &&
       decide (1 ≤ n) && decide (n ≤ 600)
   | none => false)

/-- Experience pattern 3: a decimal number in `[0.1, 50]`.  The comparisons
`0.1 ≤ v ≤ 50` are done exactly via the scaled integer
`v·10^k = intpart·10^k + fracpart`. -/
def expDecimalHit (cell : String) : Bool :=
  match firstDecimal cell with
  | some d =>
    let scaled := natOfDigits d.1 * 10 ^ d.2.length + natOfDigits d.2
    decide (10 ^ d.2.length ≤ 10 * scaled) && decide (scaled ≤ 50 * 10 ^ d.2.length)
  | none => false

def trimTrailingZeros (l : List Char) : List Char :=
  (l.reverse.dropWhile fun c => c = '0').reverse

/-- `f"{decimal_num} years"`: Python renders the parsed float back; for the
short literals in scope this is the input with leading integer zeros and
trailing fraction zeros removed (a fraction reduced to nothing renders as
`0`, as in `7.0`). -/
def expDecimalValue (cell : String) : String :=
  match firstDecimal cell with
  | some d =>
    let frac := trimTrailingZeros d.2
    natStr (natOfDigits d.1) ++ "." ++ (if frac.isEmpty then "0" else ⟨frac⟩) ++ " years"
  | none => ""

def designationHit (cl : String) : Bool :=
  designationKeywords.any fun w => containsStr w cl

def workingHit (cl : String) : Bool :=
  workingPatterns.any fun w => containsStr w cl

def dateHit (cell : String) : Bool :=
  looksLikeDate cell || hasFourDigitRun cell

/-- Qualification rule: a degree keyword, or a degree-abbreviation shape, or
any free text of length 3–49 with three consecutive letters. -/
def qualHit (cell cl : String) : Bool :=
  (qualKeywords.any fun w => containsStr w cl) ||
  searchIn matchAbbrev cl ||
  (decide (2 < cell.length) && decide (cell.length < 50) && hasKRun Char.isAlpha 3 cell)

/-- Association-type rule, content part: length in `(2, 100)` and not purely
numeric (the code checks `len > 1`, `len < 100`, `^\d+$` absent, `len > 2`). -/
def assocHit (cell : String) : Bool :=
  decide (1 < cell.length) && decide (cell.length < 100) &&
  !(!cell.data.isEmpty && cell.data.all Char.isDigit) &&
  decide (2 < cell.length)

/-! ### The scan, the fallback passes, and record construction

The scan body is a chain of guarded early-`continue` blocks; it is embedded
as an ordered rule list where the first rule that fires produces the next
state (`firstSome`), which is exactly the first-match-wins semantics of the
Python `if …: …; continue` chain. -/

/-- Age rule: fires when `Age` is unfilled and the cell passes `ageHit`. -/
def ruleAge (cell : String) (s : Record × Filled) : Option (Record × Filled) :=
  if !s.2.age && ageHit cell then
    some ({s.1 with age := ageValue cell}, {s.2 with age := true})
  else none

/-- Gender rule. -/
def ruleGender (cell cl : String) (s : Record × Filled) : Option (Record × Filled) :=
  if !s.2.gender && genderHit cell cl then
    some ({s.1 with gender := genderValue cell}, {s.2 with gender := true})
  else none

/-- Designation rule. -/
def ruleDesignation (cell cl : String) (s : Record × Filled) : Option (Record × Filled) :=
  if !s.2.designation && designationHit cl then
    some ({s.1 with designation := cell}, {s.2 with designation := true})
  else none

/-- Experience rule, keyword sub-pattern. -/
def ruleExpKeyword (cell cl : String) (s : Record × Filled) : Option (Record × Filled) :=
  if !s.2.experience && expKeywordHit cell cl then
    some ({s.1 with experience := convert_months_to_years cell}, {s.2 with experience := true})
  else none

/-- Experience rule, pure-number sub-pattern. -/
def ruleExpNumber (cell : String) (s : Record × Filled) : Option (Record × Filled) :=
  if !s.2.experience && expNumberHit cell then
    some ({s.1 with experience := convert_months_to_years cell}, {s.2 with experience := true})
  else none

/-- Experience rule, decimal sub-pattern. -/
def ruleExpDecimal (cell : String) (s : Record × Filled) : Option (Record × Filled) :=
  if !s.2.experience && expDecimalHit cell then
    some ({s.1 with experience := expDecimalValue cell}, {s.2 with experience := true})
  else none

/-- Working-status rule. -/
def ruleWorking (cell cl : String) (s : Record × Filled) : Option (Record × Filled) :=
  if !s.2.working && workingHit cl then
    some ({s.1 with working := cell}, {s.2 with working := true})
  else none

/-- Date rule: a date-shaped cell fills Joining Date first, then Leaving
Date. -/
def ruleDate (cell : String) (s : Record × Filled) : Option (Record × Filled) :=
  if (!s.2.joiningDate || !s.2.leavingDate) && dateHit cell then
    (if !s.2.joiningDate then
      some ({s.1 with joiningDate := cell}, {s.2 with joiningDate := true})
    else
      some ({s.1 with leavingDate := cell}, {s.2 with leavingDate := true}))
  else none

/-- Qualification rule. -/
def ruleQual (cell cl : String) (s : Record × Filled) : Option (Record × Filled) :=
  if !s.2.qualification && qualHit cell cl then
    some ({s.1 with qualification := cell}, {s.2 with qualification := true})
  else none

/-- Association-type rule: also requires the cell not to equal any value
already stored in the record dictionary. -/
def ruleAssoc (cell : String) (s : Record × Filled) : Option (Record × Filled) :=
  if !s.2.association && assocHit cell && !(s.1.values.contains cell) then
    some ({s.1 with associationType := cell}, {s.2 with association := true})
  else none

/-- The value of the first rule that fires, or the unchanged state. -/
def firstSome (s : Record × Filled) : List (Option (Record × Filled)) → Record × Filled
  | [] => s
  | some t :: _ => t
  | none :: os => firstSome s os

/-- One iteration of the cell scan of `create_enhanced_record_with_years`
(the body of `for i in range(2, max_cols)`): skip empty and `nan`/`none`
cells, otherwise let the first applicable rule consume the cell. -/
def scanStep (s : Record × Filled) (cellRaw : String) : Record × Filled :=
  let cell := pyStrip cellRaw
  let cl := lowerS cell
  if cell == "" || cl == "nan" || cl == "none" then s
  else firstSome s
    [ruleAge cell s, ruleGender cell cl s, ruleDesignation cell cl s,
     ruleExpKeyword cell cl s, ruleExpNumber cell s, ruleExpDecimal cell s,
     ruleWorking cell cl s, ruleDate cell s, ruleQual cell cl s, ruleAssoc cell s]

/-- Membership test of the fallback collection (`remaining_cells`): non-empty
after strip, not already one of the record's values, longer than one
character, and not a `nan`/`none` placeholder. -/
def fallbackKeep (r : Record) (cellRaw : String) : Bool :=
  let cell := pyStrip cellRaw
  !(cell == "") && !(r.values.contains cell) && decide (1 < cell.length) &&
  !(lowerS cell == "nan") && !(lowerS cell == "none")

/-- The `remaining_cells` list collected after the scan. -/
def remainingCells (row : List String) (r : Record) : List String :=
  (row.drop 2).filterMap fun c =>
    if fallbackKeep r c then some (pyStrip c) else none

/-- Condition of the experience fallback: some digit, extracted value in
`[1, 600]` and outside the age band `[18, 80]` (a falsy `0` never fires). -/
def expFallbackHit (cell : String) : Bool :=
  hasDigit cell &&
  (match safe_extract_number cell with
   | some n => !(n == 0) && decide (1 ≤ n) && decide (n ≤ 600) &&
       !(decide (18 ≤ n) && decide (n ≤ 80))
   | none => false)

/-- Experience fallback pass: if experience is still empty, consume the first
qualifying leftover cell. -/
def fbExp (st : Record × List String) : Record × List String :=
  if st.1.experience == "" && !st.2.isEmpty then
    match st.2.find? expFallbackHit with
    | some c => ({st.1 with experience := convert_months_to_years c}, st.2.erase c)
    | none => st
  else st

/-- Qualification fallback pass: first leftover cell of length 3–99. -/
def fbQual (st : Record × List String) : Record × List String :=
  if st.1.qualification == "" && !st.2.isEmpty then
    match st.2.find? (fun c => decide (2 < c.length) && decide (c.length < 100)) with
    | some c => ({st.1 with qualification := c}, st.2.erase c)
    | none => st
  else st

/-- Association-type fallback pass: first leftover cell longer than one
character (nothing is removed; the loop breaks). -/
def fbAssoc (st : Record × List String) : Record × List String :=
  if st.1.associationType == "" && !st.2.isEmpty then
    match st.2.find? (fun c => decide (1 < c.length)) with
    | some c => ({st.1 with associationType := c}, st.2)
    | none => st
  else st

/-- The record dictionary as first initialized: serial, stripped name (when
a second cell exists), institution, all inferred fields empty. -/
def initRecord (row : List String) (inst : String) (serial : Nat) : Record :=
  { sNo := natStr serial
    name := match row with | _ :: c1 :: _ => pyStrip c1 | _ => ""
    age := "", designation := "", gender := "", qualification := ""
    experience := "", working := "", joiningDate := "", leavingDate := ""
    associationType := "", institutionName := inst }

/-- The record after the scan over the cells from index 2 on and the three
fallback passes. -/
def buildRecord (row : List String) (inst : String) (serial : Nat) : Record :=
  let scanned := (row.drop 2).foldl scanStep (initRecord row inst serial, Filled.start)
  (fbAssoc (fbQual (fbExp (scanned.1, remainingCells row scanned.1)))).1

/-- `create_enhanced_record_with_years` from `extraction.py`: the built
record, or `None` when the name is empty.  (The enclosing `try/except` is
dead in this model: every step is total, so no exception path exists.) -/
def create_enhanced_record_with_years (row : List String) (inst : String)
    (serial : Nat) : Option Record :=
  let r := buildRecord row inst serial
  if r.name == "" then none else some r

/-! ### Characterization of the scan rules -/

theorem firstSome_pres {P : Record × Filled → Prop} (s : Record × Filled)
    (l : List (Option (Record × Filled))) (hs : P s)
    (hl : ∀ o ∈ l, ∀ t, o = some t → P t) : P (firstSome s l) := by
  induction l with
  | nil => exact hs
  | cons o os ih =>
    cases o with
    | some t => exact hl _ (by simp) t rfl
    | none =>
      rw [firstSome]
      exact ih fun o ho t ht => hl o (by simp [ho]) t ht

theorem ruleAge_some {cell : String} {s t : Record × Filled}
    (h : ruleAge cell s = some t) :
    s.2.age = false ∧ t = ({s.1 with age := ageValue cell}, {s.2 with age := true}) := by
  unfold ruleAge at h
  split at h
  · have hc := Bool.and_eq_true .. |>.mp ‹(!s.2.age && ageHit cell) = true›
    exact ⟨by simpa using hc.1, (Option.some_inj.mp h).symm⟩
  · exact Option.noConfusion h

theorem ruleGender_some {cell cl : String} {s t : Record × Filled}
    (h : ruleGender cell cl s = some t) :
    s.2.gender = false ∧ t = ({s.1 with gender := genderValue cell}, {s.2 with gender := true}) := by
  unfold ruleGender at h
  split at h
  · have hc := Bool.and_eq_true .. |>.mp ‹(!s.2.gender && genderHit cell cl) = true›
    exact ⟨by simpa using hc.1, (Option.some_inj.mp h).symm⟩
  · exact Option.noConfusion h

theorem ruleDesignation_some {cell cl : String} {s t : Record × Filled}
    (h : ruleDesignation cell cl s = some t) :
    s.2.designation = false ∧
      t = ({s.1 with designation := cell}, {s.2 with designation := true}) := by
  unfold ruleDesignation at h
  split at h
  · have hc := Bool.and_eq_true .. |>.mp ‹(!s.2.designation && designationHit cl) = true›
    exact ⟨by simpa using hc.1, (Option.some_inj.mp h).symm⟩
  · exact Option.noConfusion h

theorem ruleExpKeyword_some {cell cl : String} {s t : Record × Filled}
    (h : ruleExpKeyword cell cl s = some t) :
    s.2.experience = false ∧
      t = ({s.1 with experience := convert_months_to_years cell},
           {s.2 with experience := true}) := by
  unfold ruleExpKeyword at h
  split at h
  · have hc := Bool.and_eq_true .. |>.mp ‹(!s.2.experience && expKeywordHit cell cl) = true›
    exact ⟨by simpa using hc.1, (Option.some_inj.mp h).symm⟩
  · exact Option.noConfusion h

theorem ruleExpNumber_some {cell : String} {s t : Record × Filled}
    (h : ruleExpNumber cell s = some t) :
    s.2.experience = false ∧
      t = ({s.1 with experience := convert_months_to_years cell},
           {s.2 with experience := true}) := by
  unfold ruleExpNumber at h
  split at h
  · have hc := Bool.and_eq_true .. |>.mp ‹(!s.2.experience && expNumberHit cell) = true›
    exact ⟨by simpa using hc.1, (Option.some_inj.mp h).symm⟩
  · exact Option.noConfusion h

theorem ruleExpDecimal_some {cell : String} {s t : Record × Filled}
    (h : ruleExpDecimal cell s = some t) :
    s.2.experience = false ∧
      t = ({s.1 with experience := expDecimalValue cell}, {s.2 with experience := true}) := by
  unfold ruleExpDecimal at h
  split at h
  · have hc := Bool.and_eq_true .. |>.mp ‹(!s.2.experience && expDecimalHit cell) = true›
    exact ⟨by simpa using hc.1, (Option.some_inj.mp h).symm⟩
  · exact Option.noConfusion h

theorem ruleWorking_some {cell cl : String} {s t : Record × Filled}
    (h : ruleWorking cell cl s = some t) :
    s.2.working = false ∧ t = ({s.1 with working := cell}, {s.2 with working := true}) := by
  unfold ruleWorking at h
  split at h
  · have hc := Bool.and_eq_true .. |>.mp ‹(!s.2.working && workingHit cl) = true›
    exact ⟨by simpa using hc.1, (Option.some_inj.mp h).symm⟩
  · exact Option.noConfusion h

theorem ruleDate_some {cell : String} {s t : Record × Filled}
    (h : ruleDate cell s = some t) :
    (s.2.joiningDate = false ∧
      t = ({s.1 with joiningDate := cell}, {s.2 with joiningDate := true})) ∨
    (s.2.joiningDate = true ∧ s.2.leavingDate = false ∧
      t = ({s.1 with leavingDate := cell}, {s.2 with leavingDate := true})) := by
  unfold ruleDate at h
  split at h
  · rename_i hcond
    split at h
    · exact Or.inl ⟨by simpa using ‹(!s.2.joiningDate) = true›,
        (Option.some_inj.mp h).symm⟩
    · rename_i hjd
      have hjd' : s.2.joiningDate = true := by simpa using hjd
      have hor := (Bool.and_eq_true .. |>.mp hcond).1
      have hld : s.2.leavingDate = false := by
        rcases Bool.or_eq_true .. |>.mp hor with h1 | h2
        · exact absurd (by simpa using h1) (by simp [hjd'])
        · simpa using h2
      exact Or.inr ⟨hjd', hld, (Option.some_inj.mp h).symm⟩
  · exact Option.noConfusion h

theorem ruleQual_some {cell cl : String} {s t : Record × Filled}
    (h : ruleQual cell cl s = some t) :
    s.2.qualification = false ∧
      t = ({s.1 with qualification := cell}, {s.2 with qualification := true}) := by
  unfold ruleQual at h
  split at h
  · have hc := Bool.and_eq_true .. |>.mp ‹(!s.2.qualification && qualHit cell cl) = true›
    exact ⟨by simpa using hc.1, (Option.some_inj.mp h).symm⟩
  · exact Option.noConfusion h

theorem ruleAssoc_some {cell : String} {s t : Record × Filled}
    (h : ruleAssoc cell s = some t) :
    s.2.association = false ∧
      t = ({s.1 with associationType := cell}, {s.2 with association := true}) := by
  unfold ruleAssoc at h
  split at h
  · have hc := Bool.and_eq_true .. |>.mp ‹(!s.2.association && assocHit cell
      && !(s.1.values.contains cell)) = true›
    exact ⟨by simpa using (Bool.and_eq_true .. |>.mp hc.1).1, (Option.some_inj.mp h).symm⟩
  · exact Option.noConfusion h

/-! ### The scan and the fallbacks never touch the name -/

theorem scanStep_name (s : Record × Filled) (c : String) :
    (scanStep s c).1.name = s.1.name := by
  simp only [scanStep]
  split
  · rfl
  · refine firstSome_pres (P := fun t => t.1.name = s.1.name) s _ rfl ?_
    intro o ho t ht
    simp only [List.mem_cons, List.not_mem_nil, or_false] at ho
    rcases ho with rfl | rfl | rfl | rfl | rfl | rfl | rfl | rfl | rfl | rfl
    · obtain ⟨-, rfl⟩ := ruleAge_some ht; rfl
    · obtain ⟨-, rfl⟩ := ruleGender_some ht; rfl
    · obtain ⟨-, rfl⟩ := ruleDesignation_some ht; rfl
    · obtain ⟨-, rfl⟩ := ruleExpKeyword_some ht; rfl
    · obtain ⟨-, rfl⟩ := ruleExpNumber_some ht; rfl
    · obtain ⟨-, rfl⟩ := ruleExpDecimal_some ht; rfl
    · obtain ⟨-, rfl⟩ := ruleWorking_some ht; rfl
    · rcases ruleDate_some ht with ⟨-, rfl⟩ | ⟨-, -, rfl⟩ <;> rfl
    · obtain ⟨-, rfl⟩ := ruleQual_some ht; rfl
    · obtain ⟨-, rfl⟩ := ruleAssoc_some ht; rfl

theorem scanFold_name (cells : List String) (s : Record × Filled) :
    ((cells.foldl scanStep s).1).name = s.1.name := by
  induction cells generalizing s with
  | nil => rfl
  | cons c cs ih => rw [List.foldl_cons, ih, scanStep_name]

theorem fbExp_name (st : Record × List String) : (fbExp st).1.name = st.1.name := by
  unfold fbExp
  repeat' split
  all_goals rfl

theorem fbQual_name (st : Record × List String) : (fbQual st).1.name = st.1.name := by
  unfold fbQual
  repeat' split
  all_goals rfl

theorem fbAssoc_name (st : Record × List String) : (fbAssoc st).1.name = st.1.name := by
  unfold fbAssoc
  repeat' split
  all_goals rfl

/-! ### C4: no inferred field is ever overwritten -/

/-- The nine singular inferred fields of a record. -/
inductive FField where
  | age | gender | designation | qualification | experience
  | working | joiningDate | leavingDate | association
deriving DecidableEq, Repr

/-- The `filled_fields` flag of a given field. -/
def Filled.get : Filled → FField → Bool
  | fl, .age => fl.age
  | fl, .gender => fl.gender
  | fl, .designation => fl.designation
  | fl, .qualification => fl.qualification
  | fl, .experience => fl.experience
  | fl, .working => fl.working
  | fl, .joiningDate => fl.joiningDate
  | fl, .leavingDate => fl.leavingDate
  | fl, .association => fl.association

/-- The record entry of a given inferred field. -/
def Record.fieldVal : Record → FField → String
  | r, .age => r.age
  | r, .gender => r.gender
  | r, .designation => r.designation
  | r, .qualification => r.qualification
  | r, .experience => r.experience
  | r, .working => r.working
  | r, .joiningDate => r.joiningDate
  | r, .leavingDate => r.leavingDate
  | r, .association => r.associationType

/-- A rule fires only when its flag is down, and every other field's flag
and value survive the step. -/
theorem scanStep_keeps_filled (s : Record × Filled) (c : String) (f : FField)
    (h : s.2.get f = true) :
    (scanStep s c).2.get f = true ∧ (scanStep s c).1.fieldVal f = s.1.fieldVal f := by
  simp only [scanStep]
  split
  · exact ⟨h, rfl⟩
  · refine firstSome_pres
      (P := fun t => t.2.get f = true ∧ t.1.fieldVal f = s.1.fieldVal f) s _ ⟨h, rfl⟩ ?_
    intro o ho t ht
    simp only [List.mem_cons, List.not_mem_nil, or_false] at ho
    rcases ho with rfl | rfl | rfl | rfl | rfl | rfl | rfl | rfl | rfl | rfl
    · obtain ⟨hflag, rfl⟩ := ruleAge_some ht
      cases f <;> simp_all [Filled.get, Record.fieldVal]
    · obtain ⟨hflag, rfl⟩ := ruleGender_some ht
      cases f <;> simp_all [Filled.get, Record.fieldVal]
    · obtain ⟨hflag, rfl⟩ := ruleDesignation_some ht
      cases f <;> simp_all [Filled.get, Record.fieldVal]
    · obtain ⟨hflag, rfl⟩ := ruleExpKeyword_some ht
      cases f <;> simp_all [Filled.get, Record.fieldVal]
    · obtain ⟨hflag, rfl⟩ := ruleExpNumber_some ht
      cases f <;> simp_all [Filled.get, Record.fieldVal]
    · obtain ⟨hflag, rfl⟩ := ruleExpDecimal_some ht
      cases f <;> simp_all [Filled.get, Record.fieldVal]
    · obtain ⟨hflag, rfl⟩ := ruleWorking_some ht
      cases f <;> simp_all [Filled.get, Record.fieldVal]
    · rcases ruleDate_some ht with ⟨hflag, rfl⟩ | ⟨hjd, hflag, rfl⟩ <;>
        cases f <;> simp_all [Filled.get, Record.fieldVal]
    · obtain ⟨hflag, rfl⟩ := ruleQual_some ht
      cases f <;> simp_all [Filled.get, Record.fieldVal]
    · obtain ⟨hflag, rfl⟩ := ruleAssoc_some ht
      cases f <;> simp_all [Filled.get, Record.fieldVal]

theorem scanFold_keeps_filled (cells : List String) (s : Record × Filled) (f : FField)
    (h : s.2.get f = true) :
    (cells.foldl scanStep s).2.get f = true ∧
      (cells.foldl scanStep s).1.fieldVal f = s.1.fieldVal f := by
  induction cells generalizing s with
  | nil => exact ⟨h, rfl⟩
  | cons c cs ih =>
    rw [List.foldl_cons]
    obtain ⟨h1, h2⟩ := scanStep_keeps_filled s c f h
    obtain ⟨h3, h4⟩ := ih (scanStep s c) h1
    exact ⟨h3, h4.trans h2⟩

/-- During the scan a field whose flag is down is still empty. -/
theorem scanStep_cover (s : Record × Filled) (c : String)
    (h : ∀ f, s.2.get f = false → s.1.fieldVal f = "") :
    ∀ f, (scanStep s c).2.get f = false → (scanStep s c).1.fieldVal f = "" := by
  simp only [scanStep]
  split
  · exact h
  · refine firstSome_pres
      (P := fun t => ∀ f, t.2.get f = false → t.1.fieldVal f = "") s _ h ?_
    intro o ho t ht
    simp only [List.mem_cons, List.not_mem_nil, or_false] at ho
    rcases ho with rfl | rfl | rfl | rfl | rfl | rfl | rfl | rfl | rfl | rfl <;>
      [obtain ⟨hflag, rfl⟩ := ruleAge_some ht;
       obtain ⟨hflag, rfl⟩ := ruleGender_some ht;
       obtain ⟨hflag, rfl⟩ := ruleDesignation_some ht;
       obtain ⟨hflag, rfl⟩ := ruleExpKeyword_some ht;
       obtain ⟨hflag, rfl⟩ := ruleExpNumber_some ht;
       obtain ⟨hflag, rfl⟩ := ruleExpDecimal_some ht;
       obtain ⟨hflag, rfl⟩ := ruleWorking_some ht;
       rcases ruleDate_some ht with ⟨hflag, rfl⟩ | ⟨hjd, hflag, rfl⟩;
       obtain ⟨hflag, rfl⟩ := ruleQual_some ht;
       obtain ⟨hflag, rfl⟩ := ruleAssoc_some ht] <;>
      (intro f hf
       cases f <;>
         simp only [Filled.get, Record.fieldVal] at hf ⊢ <;>
         first
           | simp at hf
           | exact h .age hf
           | exact h .gender hf
           | exact h .designation hf
           | exact h .qualification hf
           | exact h .experience hf
           | exact h .working hf
           | exact h .joiningDate hf
           | exact h .leavingDate hf
           | exact h .association hf)

theorem scanFold_cover (cells : List String) (s : Record × Filled)
    (h : ∀ f, s.2.get f = false → s.1.fieldVal f = "") :
    ∀ f, (cells.foldl scanStep s).2.get f = false →
      (cells.foldl scanStep s).1.fieldVal f = "" := by
  induction cells generalizing s with
  | nil => exact h
  | cons c cs ih =>
    rw [List.foldl_cons]
    exact ih (scanStep s c) (scanStep_cover s c h)

/-- A non-empty field value survives a scan step. -/
theorem scanStep_keeps_value (s : Record × Filled) (c : String)
    (hcov : ∀ f, s.2.get f = false → s.1.fieldVal f = "") (f : FField)
    (hv : s.1.fieldVal f ≠ "") :
    (scanStep s c).1.fieldVal f = s.1.fieldVal f := by
  have hflag : s.2.get f = true := by
    cases hb : s.2.get f
    · exact absurd (hcov f hb) hv
    · rfl
  exact (scanStep_keeps_filled s c f hflag).2

/-- A non-empty field value survives the rest of the scan. -/
theorem scanFold_keeps_value (cells : List String) (s : Record × Filled)
    (hcov : ∀ f, s.2.get f = false → s.1.fieldVal f = "") (f : FField)
    (hv : s.1.fieldVal f ≠ "") :
    (cells.foldl scanStep s).1.fieldVal f = s.1.fieldVal f := by
  have hflag : s.2.get f = true := by
    cases hb : s.2.get f
    · exact absurd (hcov f hb) hv
    · rfl
  exact (scanFold_keeps_filled cells s f hflag).2

/-- A non-empty field value survives the experience fallback. -/
theorem fbExp_keeps (st : Record × List String) (f : FField)
    (hv : st.1.fieldVal f ≠ "") : (fbExp st).1.fieldVal f = st.1.fieldVal f := by
  unfold fbExp
  split
  · split
    · cases f <;> simp_all [Record.fieldVal]
    · rfl
  · rfl

/-- A non-empty field value survives the qualification fallback. -/
theorem fbQual_keeps (st : Record × List String) (f : FField)
    (hv : st.1.fieldVal f ≠ "") : (fbQual st).1.fieldVal f = st.1.fieldVal f := by
  unfold fbQual
  split
  · split
    · cases f <;> simp_all [Record.fieldVal]
    · rfl
  · rfl

/-- A non-empty field value survives the association fallback. -/
theorem fbAssoc_keeps (st : Record × List String) (f : FField)
    (hv : st.1.fieldVal f ≠ "") : (fbAssoc st).1.fieldVal f = st.1.fieldVal f := by
  unfold fbAssoc
  split
  · split
    · cases f <;> simp_all [Record.fieldVal]
    · rfl
  · rfl

/-- **C4.**  First match wins, and nothing is ever overwritten: split the
scanned cells anywhere; any singular field already set (non-empty, which is
exactly "filled": rules fire only with their flag down and empty fields stay
empty while their flag is down) at that intermediate point of the scan holds
the same value in the finished record — no later cell and no fallback pass
changes it. -/
theorem claim_C4_fields_never_overwritten (row : List String) (inst : String)
    (serial : Nat) (l₁ l₂ : List String) (hsplit : row.drop 2 = l₁ ++ l₂) (f : FField)
    (hset : (l₁.foldl scanStep (initRecord row inst serial, Filled.start)).1.fieldVal f ≠ "") :
    (buildRecord row inst serial).fieldVal f
      = (l₁.foldl scanStep (initRecord row inst serial, Filled.start)).1.fieldVal f ∧
    (∀ st : Record × List String, ∀ g : FField, st.1.fieldVal g ≠ "" →
      (fbAssoc (fbQual st)).1.fieldVal g = st.1.fieldVal g ∧
      (fbAssoc st).1.fieldVal g = st.1.fieldVal g) := by
  refine ⟨?_, fun st g hg => ?_⟩
  case refine_2 =>
    have eq1 := fbQual_keeps st g hg
    refine ⟨?_, fbAssoc_keeps st g hg⟩
    rw [fbAssoc_keeps (fbQual st) g (by rw [eq1]; exact hg), eq1]
  have hcov0 : ∀ g, (initRecord row inst serial, Filled.start).2.get g = false →
      (initRecord row inst serial, Filled.start).1.fieldVal g = "" := by
    intro g _
    cases g <;> rfl
  have hcovMid := scanFold_cover l₁ (initRecord row inst serial, Filled.start) hcov0
  have hEndVal : ((l₁ ++ l₂).foldl scanStep (initRecord row inst serial, Filled.start)).1.fieldVal f
      = (l₁.foldl scanStep (initRecord row inst serial, Filled.start)).1.fieldVal f := by
    rw [List.foldl_append]
    exact scanFold_keeps_value l₂ _ hcovMid f hset
  simp only [buildRecord, hsplit]
  have hEndNe : ((l₁ ++ l₂).foldl scanStep (initRecord row inst serial, Filled.start)).1.fieldVal f ≠ "" := by
    rw [hEndVal]; exact hset
  have e1 := fbExp_keeps (((l₁ ++ l₂).foldl scanStep (initRecord row inst serial, Filled.start)).1,
    remainingCells row ((l₁ ++ l₂).foldl scanStep (initRecord row inst serial, Filled.start)).1) f hEndNe
  have e2 := fbQual_keeps (fbExp (((l₁ ++ l₂).foldl scanStep (initRecord row inst serial, Filled.start)).1,
    remainingCells row ((l₁ ++ l₂).foldl scanStep (initRecord row inst serial, Filled.start)).1)) f
    (by rw [e1]; exact hEndNe)
  have e3 := fbAssoc_keeps (fbQual (fbExp (((l₁ ++ l₂).foldl scanStep (initRecord row inst serial, Filled.start)).1,
    remainingCells row ((l₁ ++ l₂).foldl scanStep (initRecord row inst serial, Filled.start)).1))) f
    (by rw [e2, e1]; exact hEndNe)
  rw [e3, e2, e1, hEndVal]

/-- Witness for C4: in the row `["1", "John", "45", "M"]` the age set by the
first scanned cell survives to the finished record. -/
theorem claim_C4_fields_never_overwritten_witness :
    (buildRecord ["1", "John", "45", "M"] "I" 1).fieldVal FField.age = "45" := by
  have h := (claim_C4_fields_never_overwritten ["1", "John", "45", "M"] "I" 1
    ["45"] ["M"] rfl FField.age (by decide)).1
  rw [h]
  decide

/-- The name field a row yields: the stripped second cell, if any. -/
def extractedName (row : List String) : String :=
  match row with
  | _ :: c1 :: _ => pyStrip c1
  | _ => ""

theorem initRecord_name (row : List String) (inst : String) (serial : Nat) :
    (initRecord row inst serial).name = extractedName row := by
  cases row with
  | nil => rfl
  | cons a t => cases t <;> rfl

theorem buildRecord_name (row : List String) (inst : String) (serial : Nat) :
    (buildRecord row inst serial).name = extractedName row := by
  simp only [buildRecord]
  rw [fbAssoc_name, fbQual_name, fbExp_name]
  show ((row.drop 2).foldl scanStep (initRecord row inst serial, Filled.start)).1.name = _
  rw [scanFold_name, initRecord_name]

/-- **C6.**  Record construction returns `None` exactly when the extracted
name (stripped cell at index 1, `""` for short rows) is empty; every record
it does return carries a non-empty name.  (The claim's exception clause is
vacuous here: the embedding is total, matching the code in which no
statement of the construction can raise.) -/
theorem claim_C6_name_mandatory (row : List String) (inst : String) (serial : Nat) :
    (extractedName row = "" → create_enhanced_record_with_years row inst serial = none) ∧
    (∀ r, create_enhanced_record_with_years row inst serial = some r → r.name ≠ "") := by
  have hname : (buildRecord row inst serial).name = extractedName row :=
    buildRecord_name row inst serial
  constructor
  · intro h
    simp only [create_enhanced_record_with_years, hname, h]
    simp
  · intro r hr
    simp only [create_enhanced_record_with_years] at hr
    split at hr
    · exact Option.noConfusion hr
    · have hcond := ‹¬ ((buildRecord row inst serial).name == "") = true›
      injection hr with h'
      subst h'
      simpa using hcond

/-- Witness for C6: a row whose second cell strips to nothing yields no
record. -/
theorem claim_C6_name_mandatory_witness :
    create_enhanced_record_with_years ["1", " "] "I" 1 = none :=
  (claim_C6_name_mandatory ["1", " "] "I" 1).1 (by decide)

/-! ### C1: the worked example row -/

/-- The example row of the specification. -/
def c1Row : List String :=
  ["3", "Jane Smith", "34", "Associate Professor", "F", "M.Tech",
   "48 months", "Yes", "12/2019", "", "Regular"]

/-- The record state after the first eight scanned cells of `c1Row`. -/
def c1Scanned (inst : String) : Record :=
  { sNo := "3", name := "Jane Smith", age := "34", designation := "Associate Professor",
    gender := "F", qualification := "M.Tech", experience := "4 years", working := "Yes",
    joiningDate := "12/2019", leavingDate := "", associationType := "",
    institutionName := inst }

/-- The flags after the first eight scanned cells of `c1Row`. -/
def c1Flags8 : Filled :=
  ⟨true, true, true, true, true, true, true, false, false⟩

/-- **C1, counterexample.**  The claim quantifies over every institution name
`I`; for `I = "Regular"` the Association-type rule's membership check
`cell_value not in record.values()` sees the institution name among the
record's values and rejects the cell `"Regular"`, so the experience fallback
text `"48 months"` lands in Association type instead. -/
theorem claim_C1_counterexample :
    create_enhanced_record_with_years c1Row "Regular" 3
        = some { c1Scanned "Regular" with associationType := "48 months" } ∧
      ¬ create_enhanced_record_with_years c1Row "Regular" 3
        = some { c1Scanned "Regular" with associationType := "Regular" } := by
  refine ⟨by decide, by decide⟩

/-- The flags after all nine scanned cells of `c1Row`. -/
def c1Flags9 : Filled :=
  ⟨true, true, true, true, true, true, true, false, true⟩

/-- The finished record for `c1Row`. -/
def c1Final (inst : String) : Record :=
  { c1Scanned inst with associationType := "Regular" }

/-- **C1 (amended).**  For every institution name `I` other than `"Regular"`
(the value of the row's association cell, which the rule's
`not in record.values()` check compares against the stored institution name),
the inference engine maps the example row exactly as the specification
expects, with Association type `"Regular"` and Institution name `I`. -/
theorem claim_C1_example_row (I : String) (h : I ≠ "Regular") :
    create_enhanced_record_with_years c1Row I 3 = some (c1Final I) := by
  have hb : ("Regular" == I) = false := beq_eq_false_iff_ne.mpr fun e => h e.symm
  have s1 : scanStep (⟨"3", "Jane Smith", "", "", "", "", "", "", "", "", "", I⟩,
      ⟨false, false, false, false, false, false, false, false, false⟩) "34"
      = (⟨"3", "Jane Smith", "34", "", "", "", "", "", "", "", "", I⟩,
         ⟨true, false, false, false, false, false, false, false, false⟩) := rfl
  have s2 : scanStep (⟨"3", "Jane Smith", "34", "", "", "", "", "", "", "", "", I⟩,
      ⟨true, false, false, false, false, false, false, false, false⟩) "Associate Professor"
      = (⟨"3", "Jane Smith", "34", "Associate Professor", "", "", "", "", "", "", "", I⟩,
         ⟨true, false, true, false, false, false, false, false, false⟩) := rfl
  have s3 : scanStep (⟨"3", "Jane Smith", "34", "Associate Professor", "", "", "", "", "", "", "", I⟩,
      ⟨true, false, true, false, false, false, false, false, false⟩) "F"
      = (⟨"3", "Jane Smith", "34", "Associate Professor", "F", "", "", "", "", "", "", I⟩,
         ⟨true, true, true, false, false, false, false, false, false⟩) := rfl
  have s4 : scanStep (⟨"3", "Jane Smith", "34", "Associate Professor", "F", "", "", "", "", "", "", I⟩,
      ⟨true, true, true, false, false, false, false, false, false⟩) "M.Tech"
      = (⟨"3", "Jane Smith", "34", "Associate Professor", "F", "M.Tech", "", "", "", "", "", I⟩,
         ⟨true, true, true, true, false, false, false, false, false⟩) := rfl
  have s5 : scanStep (⟨"3", "Jane Smith", "34", "Associate Professor", "F", "M.Tech", "", "", "", "", "", I⟩,
      ⟨true, true, true, true, false, false, false, false, false⟩) "48 months"
      = (⟨"3", "Jane Smith", "34", "Associate Professor", "F", "M.Tech", "4 years", "", "", "", "", I⟩,
         ⟨true, true, true, true, true, false, false, false, false⟩) := rfl
  have s6 : scanStep (⟨"3", "Jane Smith", "34", "Associate Professor", "F", "M.Tech", "4 years", "", "", "", "", I⟩,
      ⟨true, true, true, true, true, false, false, false, false⟩) "Yes"
      = (⟨"3", "Jane Smith", "34", "Associate Professor", "F", "M.Tech", "4 years", "Yes", "", "", "", I⟩,
         ⟨true, true, true, true, true, true, false, false, false⟩) := rfl
  have s7 : scanStep (⟨"3", "Jane Smith", "34", "Associate Professor", "F", "M.Tech", "4 years", "Yes", "", "", "", I⟩,
      ⟨true, true, true, true, true, true, false, false, false⟩) "12/2019"
      = (⟨"3", "Jane Smith", "34", "Associate Professor", "F", "M.Tech", "4 years", "Yes", "12/2019", "", "", I⟩,
         ⟨true, true, true, true, true, true, true, false, false⟩) := rfl
  have s8 : scanStep (⟨"3", "Jane Smith", "34", "Associate Professor", "F", "M.Tech", "4 years", "Yes", "12/2019", "", "", I⟩,
      ⟨true, true, true, true, true, true, true, false, false⟩) ""
      = (c1Scanned I, c1Flags8) := rfl
  have hcontains : (c1Scanned I).values.contains "Regular" = false := by
    simp only [Record.values, c1Scanned, List.contains_cons, List.contains_nil]
    simp [hb]
  have hrule : ruleAssoc "Regular" (c1Scanned I, c1Flags8)
      = some (c1Final I, c1Flags9) := by
    show (if (!c1Flags8.association && assocHit "Regular" &&
          !((c1Scanned I).values.contains "Regular")) = true
        then some (c1Final I, c1Flags9) else none)
      = some (c1Final I, c1Flags9)
    rw [hcontains, if_pos (by decide)]
  have hstep : scanStep (c1Scanned I, c1Flags8) "Regular" = (c1Final I, c1Flags9) := by
    rw [show scanStep (c1Scanned I, c1Flags8) "Regular"
        = firstSome (c1Scanned I, c1Flags8)
            [ruleAge "Regular" (c1Scanned I, c1Flags8),
             ruleGender "Regular" "regular" (c1Scanned I, c1Flags8),
             ruleDesignation "Regular" "regular" (c1Scanned I, c1Flags8),
             ruleExpKeyword "Regular" "regular" (c1Scanned I, c1Flags8),
             ruleExpNumber "Regular" (c1Scanned I, c1Flags8),
             ruleExpDecimal "Regular" (c1Scanned I, c1Flags8),
             ruleWorking "Regular" "regular" (c1Scanned I, c1Flags8),
             ruleDate "Regular" (c1Scanned I, c1Flags8),
             ruleQual "Regular" "regular" (c1Scanned I, c1Flags8),
             ruleAssoc "Regular" (c1Scanned I, c1Flags8)] from rfl]
    rw [show ruleAge "Regular" (c1Scanned I, c1Flags8) = none from rfl,
      show ruleGender "Regular" "regular" (c1Scanned I, c1Flags8) = none from rfl,
      show ruleDesignation "Regular" "regular" (c1Scanned I, c1Flags8) = none from rfl,
      show ruleExpKeyword "Regular" "regular" (c1Scanned I, c1Flags8) = none from rfl,
      show ruleExpNumber "Regular" (c1Scanned I, c1Flags8) = none from rfl,
      show ruleExpDecimal "Regular" (c1Scanned I, c1Flags8) = none from rfl,
      show ruleWorking "Regular" "regular" (c1Scanned I, c1Flags8) = none from rfl,
      show ruleDate "Regular" (c1Scanned I, c1Flags8) = none from rfl,
      show ruleQual "Regular" "regular" (c1Scanned I, c1Flags8) = none from rfl,
      hrule]
    simp only [firstSome]
  have hscan : (c1Row.drop 2).foldl scanStep (initRecord c1Row I 3, Filled.start)
      = (c1Final I, c1Flags9) := by
    rw [show (initRecord c1Row I 3, Filled.start)
        = ((⟨"3", "Jane Smith", "", "", "", "", "", "", "", "", "", I⟩ : Record),
           (⟨false, false, false, false, false, false, false, false, false⟩ : Filled)) from rfl]
    rw [show c1Row.drop 2
        = ["34", "Associate Professor", "F", "M.Tech", "48 months", "Yes",
           "12/2019", "", "Regular"] from rfl]
    simp only [List.foldl_cons, List.foldl_nil]
    rw [s1, s2, s3, s4, s5, s6, s7, s8, hstep]
  unfold create_enhanced_record_with_years buildRecord
  rw [hscan]
  rfl

/-- Witness for C1: the amended theorem applied at a concrete institution
name different from `"Regular"`. -/
theorem claim_C1_example_row_witness :
    create_enhanced_record_with_years c1Row "Green Valley College" 3
      = some (c1Final "Green Valley College") :=
  claim_C1_example_row "Green Valley College" (by decide)

/-- **C8.**  A classified row in which the date-shaped cell `"12/2019"`
arrives (at index 2) before any experience-bearing cell: the cell's first
digit run `12` lies in `[1, 600]` and outside `[18, 80]`, so the Experience
rule's pure-number sub-pattern consumes it as `"1 years"`, and Joining Date
stays empty — the cell never reaches the date rule. -/
theorem claim_C8_date_cell_consumed_as_experience :
    is_potential_faculty_row ["1", "John Smith", "12/2019", "Yes"] = true ∧
    safe_extract_number "12/2019" = some 12 ∧
    create_enhanced_record_with_years ["1", "John Smith", "12/2019", "Yes"] "I" 1
      = some { sNo := "1", name := "John Smith", age := "", designation := "",
               gender := "", qualification := "12/2019", experience := "1 years",
               working := "Yes", joiningDate := "", leavingDate := "",
               associationType := "", institutionName := "I" } := by
  refine ⟨by decide, by decide, by decide⟩

/-- **C10.**  A cell whose stripped, lowercased content is `"nan"` or
`"none"` is invisible to the inference: the scan step leaves any state
unchanged on it, and the fallback collection never keeps it, so no inferred
field can receive such a value from such a cell. -/
theorem claim_C10_nan_none_cells_skipped (c : String)
    (h : lowerS (pyStrip c) = "nan" ∨ lowerS (pyStrip c) = "none") :
    (∀ s, scanStep s c = s) ∧ (∀ r, fallbackKeep r c = false) := by
  constructor
  · intro s
    simp only [scanStep]
    rcases h with h | h <;> rw [h] <;> simp
  · intro r
    simp only [fallbackKeep]
    rcases h with h | h <;> rw [h] <;> simp

/-- Witness for C10 at the concrete cells `" NaN "` and `"None"`. -/
theorem claim_C10_nan_none_cells_skipped_witness :
    scanStep (initRecord ["1", "X"] "I" 1, Filled.start) " NaN "
        = (initRecord ["1", "X"] "I" 1, Filled.start) ∧
      fallbackKeep (initRecord ["1", "X"] "I" 1) "None" = false := by
  have h1 := claim_C10_nan_none_cells_skipped " NaN " (Or.inl (by decide))
  have h2 := claim_C10_nan_none_cells_skipped "None" (Or.inr (by decide))
  exact ⟨h1.1 _, h2.2 _⟩

/-! ### Collection-stage duplicate check and per-college assembly -/

/-- The duplicate check of `extract_from_single_pdf`: a freshly built record
is dropped when an already collected record has the same lowercased, stripped
name AND the same `S No`; otherwise it is appended. -/
def add_record_if_new (records : List Record) (r : Record) : List Record :=
  if records.any fun e =>
      (pyStrip (lowerS e.name) == pyStrip (lowerS r.name)) && (e.sNo == r.sNo)
  then records else records ++ [r]

/-- `df.drop_duplicates(subset=["Name"], keep="first")` from
`save_individual_college_excel`: keep the first record of each exact name. -/
def dedupByName (l : List Record) : List Record := go [] l
where
  go : List String → List Record → List Record
    | _, [] => []
    | seen, r :: rs =>
      if seen.contains r.name then go seen rs
      else r :: go (r.name :: seen) rs

/-- Modelled from the library collaborator
`pandas.to_numeric(..., errors='coerce')` on an `S No` string: an optional
sign, integer digits, and an optional decimal fraction; anything else is
non-numeric (`NaN`).  The value is kept exactly as a scaled pair
(numerator, positive power-of-ten denominator). -/
def parseNumeric (l : List Char) : Option (Int × Nat) :=
  match l with
  | '-' :: t => (parseNumeric.core t).map fun p => (-(p.1 : Int), p.2)
  | '+' :: t => (parseNumeric.core t).map fun p => ((p.1 : Int), p.2)
  | t => (parseNumeric.core t).map fun p => ((p.1 : Int), p.2)
where
  core (m : List Char) : Option (Nat × Nat) :=
    let d1 := m.takeWhile Char.isDigit
    match m.drop d1.length with
    | [] => if d1.isEmpty then none else some (natOfDigits d1, 1)
    | '.' :: frac =>
      if frac.all Char.isDigit && !(d1.isEmpty && frac.isEmpty) then
        some (natOfDigits d1 * 10 ^ frac.length + natOfDigits frac, 10 ^ frac.length)
      else none
    | _ => none

/-- The sort key: the record's `S No` as a number, or the `fillna` sentinel
`999999` when it does not parse. -/
def sNoKey (r : Record) : Int × Nat :=
  match parseNumeric r.sNo.data with
  | some k => k
  | none => (999999, 1)

/-- Numeric order on keys, by exact cross-multiplication. -/
def keyLe (a b : Int × Nat) : Bool :=
  decide (a.1 * (b.2 : Int) ≤ b.1 * (a.2 : Int))

/-- Insert a record before the first already placed record of larger-or-equal
key (the record being inserted precedes those placed after it in encounter
order, which keeps equal keys in encounter order). -/
def insertByKey (r : Record) : List Record → List Record
  | [] => [r]
  | x :: xs => if keyLe (sNoKey r) (sNoKey x) then r :: x :: xs else x :: insertByKey r xs

/-- `df.sort_values(["S No Numeric"])`, modelled as a stable insertion sort
by the numeric key.  (pandas' default `kind='quicksort'` does not document a
tie order; the model fixes ties to encounter order.) -/
def sortBySNo : List Record → List Record
  | [] => []
  | r :: rs => insertByKey r (sortBySNo rs)

/-- The assembled per-college table of `save_individual_college_excel`: drop
exact-name duplicates, sort by the numeric serial key, then prepend the
dense `Final Serial` column `1..N`. -/
def collegeTable (records : List Record) : List (Nat × Record) :=
  let d := dedupByName records
  let s := sortBySNo d
  (List.range' 1 s.length).zip s

/-! ### Development results on the assembly (the parts of the final-table
claim that do not depend on the library sort's tie order) -/

theorem insertByKey_perm (r : Record) (l : List Record) :
    (insertByKey r l).Perm (r :: l) := by
  induction l with
  | nil => exact List.Perm.refl _
  | cons x xs ih =>
    rw [insertByKey]
    split
    · exact List.Perm.refl _
    · exact (ih.cons x).trans (List.Perm.swap r x xs)

theorem sortBySNo_perm (l : List Record) : (sortBySNo l).Perm l := by
  induction l with
  | nil => exact List.Perm.refl _
  | cons x xs ih =>
    rw [sortBySNo]
    exact (insertByKey_perm x (sortBySNo xs)).trans (ih.cons x)

theorem mem_insertByKey {y r : Record} {l : List Record}
    (h : y ∈ insertByKey r l) : y = r ∨ y ∈ l :=
  List.mem_cons.mp ((insertByKey_perm r l).mem_iff.mp h)

theorem parseNumeric_core_pos (m : List Char) (p : Nat × Nat)
    (h : parseNumeric.core m = some p) : 0 < p.2 := by
  unfold parseNumeric.core at h
  dsimp only at h
  split at h
  · split at h
    · exact Option.noConfusion h
    · cases h
      exact Nat.one_pos
  · split at h
    · cases h
      exact pow_pos (by norm_num) _
    · exact Option.noConfusion h
  · exact Option.noConfusion h

theorem parseNumeric_pos (l : List Char) (p : Int × Nat)
    (h : parseNumeric l = some p) : 0 < p.2 := by
  unfold parseNumeric at h
  split at h <;>
    (rcases Option.map_eq_some'.mp h with ⟨q, hq, rfl⟩
     exact parseNumeric_core_pos _ q hq)

theorem sNoKey_pos (r : Record) : 0 < (sNoKey r).2 := by
  unfold sNoKey
  cases hp : parseNumeric r.sNo.data with
  | none => exact Nat.one_pos
  | some k => exact parseNumeric_pos _ k hp

theorem keyLe_total (a b : Int × Nat) : keyLe a b = true ∨ keyLe b a = true := by
  simp only [keyLe, decide_eq_true_eq]
  exact le_total ..

theorem keyLe_trans {a b c : Int × Nat} (_ha : 0 < a.2) (hb : 0 < b.2) (_hc : 0 < c.2)
    (h1 : keyLe a b = true) (h2 : keyLe b c = true) : keyLe a c = true := by
  simp only [keyLe, decide_eq_true_eq] at *
  have hb' : (0 : Int) < b.2 := Int.natCast_pos.mpr hb
  have hc' : (0 : Int) ≤ c.2 := Int.natCast_nonneg _
  have ha' : (0 : Int) ≤ a.2 := Int.natCast_nonneg _
  nlinarith [mul_le_mul_of_nonneg_right h1 hc', mul_le_mul_of_nonneg_right h2 ha']

/-- The key order on records. -/
def recLe (a b : Record) : Prop := keyLe (sNoKey a) (sNoKey b) = true

theorem insertByKey_sorted (r : Record) (l : List Record)
    (h : l.Pairwise recLe) : (insertByKey r l).Pairwise recLe := by
  induction l with
  | nil => simp [insertByKey, List.pairwise_cons]
  | cons x xs ih =>
    obtain ⟨hx, hxs⟩ := List.pairwise_cons.mp h
    rw [insertByKey]
    split
    · rename_i hrx
      refine List.Pairwise.cons ?_ h
      intro y hy
      rcases List.mem_cons.mp hy with rfl | hy'
      · exact hrx
      · exact keyLe_trans (sNoKey_pos r) (sNoKey_pos x) (sNoKey_pos y) hrx (hx y hy')
    · rename_i hrx
      have hxr : recLe x r := by
        rcases keyLe_total (sNoKey r) (sNoKey x) with h1 | h1
        · exact absurd h1 hrx
        · exact h1
      refine List.Pairwise.cons ?_ (ih hxs)
      intro y hy
      rcases mem_insertByKey hy with rfl | hy'
      · exact hxr
      · exact hx y hy'

theorem sortBySNo_sorted (l : List Record) : (sortBySNo l).Pairwise recLe := by
  induction l with
  | nil => exact List.Pairwise.nil
  | cons x xs ih => exact insertByKey_sorted x _ ih

/-- The `Final Serial` column is exactly the dense sequence `1..N`, where
`N` is the number of records surviving duplicate removal. -/
theorem collegeTable_serials (l : List Record) :
    (collegeTable l).map Prod.fst = List.range' 1 (dedupByName l).length := by
  simp only [collegeTable]
  rw [List.map_fst_zip, (sortBySNo_perm _).length_eq]
  rw [List.length_range', (sortBySNo_perm _).length_eq]

/-- The record column of the table is a permutation of the deduplicated
records. -/
theorem collegeTable_perm (l : List Record) :
    ((collegeTable l).map Prod.snd).Perm (dedupByName l) := by
  simp only [collegeTable]
  rw [List.map_snd_zip]
  · exact sortBySNo_perm _
  · rw [List.length_range']

/-- The record column of the table is ordered by the numeric serial key,
non-numeric serials keyed by the sentinel `999999`. -/
theorem collegeTable_sorted (l : List Record) :
    ((collegeTable l).map Prod.snd).Pairwise recLe := by
  simp only [collegeTable]
  rw [List.map_snd_zip]
  · exact sortBySNo_sorted _
  · rw [List.length_range']

/-- A collected record for the C9 scenario. -/
def c9r1 : Record := ⟨"1", "John Smith", "", "", "", "", "", "", "", "", "", "C"⟩

/-- Same name up to letter case, different serial. -/
def c9r2 : Record := ⟨"2", "JOHN SMITH", "", "", "", "", "", "", "", "", "", "C"⟩

/-- Same name up to letter case, same serial. -/
def c9r3 : Record := ⟨"1", "JOHN SMITH", "", "", "", "", "", "", "", "", "", "C"⟩

/-- **C9.**  Only the collection stage compares names case-insensitively
(and only together with the serial): two records whose names differ only in
case survive collection when their serials differ (and would be merged if
the serials were equal), and the final per-college table — whose duplicate
removal keys on the exact name string — keeps both. -/
theorem claim_C9_dedup_case_sensitivity :
    add_record_if_new (add_record_if_new [] c9r1) c9r2 = [c9r1, c9r2] ∧
    add_record_if_new (add_record_if_new [] c9r1) c9r3 = [c9r1] ∧
    dedupByName [c9r1, c9r2] = [c9r1, c9r2] ∧
    (collegeTable [c9r1, c9r2]).map Prod.snd = [c9r1, c9r2] ∧
    lowerS c9r1.name = lowerS c9r2.name ∧ c9r1.name ≠ c9r2.name := by
  exact ⟨by decide, by decide, by decide, by decide, by decide, by decide⟩

end Extraction

